import Mathlib

/-!
Shallow embedding of the SkyCity/Crown blackjack Monte Carlo simulators
(`blackjack_simulation.py`, `blackjack_simulation1.py`,
`blackjack_simulator_full.py`, `skycity_blackjack.py`).

Conventions used throughout:
* Card ranks are the inductive `Rank`; the Python rank strings map to the
  corresponding constructors.
* Python lists used as decks are popped from the end (`deck.pop()`); the Lean
  `List Rank` stores the same deck reversed, so a draw takes the head.
* Money amounts and probabilities (Python floats) are modelled as `ℚ`.
* Ambient randomness (`random.shuffle`, `random.choice`, `np.random.rand`,
  `np.random.choice`) is modelled by explicit injected streams: a stream of
  shuffled decks `Nat → List Rank`, a stream of uniform draws `Nat → ℚ`, and a
  stream of fallback ranks `Nat → Rank`, each consumed at an explicitly
  threaded index.
* Fallible Python operations (`list.pop()` on an empty list raises
  `IndexError`) are modelled with `Option`; `none` is the crash.
-/

namespace BJ

/-- Card ranks, `all_ranks = ['2',...,'10','J','Q','K','A']` in
`blackjack_simulator_full.py` line 28 and `CARD_VALUES.keys()` in the other
variants. -/
inductive Rank where
  | r2 | r3 | r4 | r5 | r6 | r7 | r8 | r9 | r10 | J | Q | K | A
  deriving DecidableEq

/-- Blackjack point value of a rank: `card_values` in
`blackjack_simulator_full.py` lines 29-30 and `CARD_VALUES` in
`skycity_blackjack.py` lines 36-37 (identical mappings, Ace as 11). -/
def cardValue : Rank → Nat
  | Rank.r2 => 2
  | Rank.r3 => 3
  | Rank.r4 => 4
  | Rank.r5 => 5
  | Rank.r6 => 6
  | Rank.r7 => 7
  | Rank.r8 => 8
  | Rank.r9 => 9
  | Rank.r10 => 10
  | Rank.J => 10
  | Rank.Q => 10
  | Rank.K => 10
  | Rank.A => 11

/-- Hi-Lo counting weight: `hi_lo_values` in `blackjack_simulator_full.py`
lines 31-33; the same mapping is called `card_values` in
`blackjack_simulation.py` lines 50-54 and `blackjack_simulation1.py`
lines 20-24. -/
def hiLoValue : Rank → Int
  | Rank.r2 => 1
  | Rank.r3 => 1
  | Rank.r4 => 1
  | Rank.r5 => 1
  | Rank.r6 => 1
  | Rank.r7 => 0
  | Rank.r8 => 0
  | Rank.r9 => 0
  | _ => -1

/-- Sum of Hi-Lo weights of a list of cards
(`sum(hi_lo_values[c] for c in ...)`). -/
def hiLoSum (cards : List Rank) : Int :=
  (cards.map hiLoValue).sum

/-- Raw point total with every Ace counted as 11:
`sum(card_values[c] for c in hand)`. -/
def rawSum (hand : List Rank) : Nat :=
  (hand.map cardValue).sum

/-- Number of Aces in a hand: `hand.count('A')`. -/
def countAces (hand : List Rank) : Nat :=
  hand.count Rank.A

/-- The Ace-reduction loop `while val > 21 and aces: val -= 10; aces -= 1`
shared by `hand_value` in `blackjack_simulator_full.py` lines 79-81 and
`skycity_blackjack.py` lines 45-47. -/
def reduceAces : Nat → Nat → Nat
  | val, 0 => val
  | val, a + 1 => if 21 < val then reduceAces (val - 10) a else val

/-- `hand_value(hand)`: `blackjack_simulator_full.py` lines 76-82 and
`skycity_blackjack.py` lines 42-48 (identical bodies). -/
def handValue (hand : List Rank) : Nat :=
  reduceAces (rawSum hand) (countAces hand)

/-- `is_soft(hand)` from `blackjack_simulator_full.py` lines 84-85:
an Ace is present, the value is at most 21, and the value differs from the
raw all-Aces-as-11 sum. -/
def is_soft (hand : List Rank) : Bool :=
  decide (Rank.A ∈ hand) && decide (handValue hand ≤ 21)
    && decide (handValue hand ≠ rawSum hand)

/-- Characterization of the Ace-reduction loop: it subtracts 10 exactly `k`
times where the first `k` intermediate totals were all above 21, and it stops
either at a total of at most 21 or after using every Ace. -/
lemma reduceAces_char (a : Nat) : ∀ val : Nat,
    ∃ k : Nat, k ≤ a ∧ reduceAces val a = val - 10 * k ∧
      (∀ j < k, 21 < val - 10 * j) ∧
      (val - 10 * k ≤ 21 ∨ k = a) := by
  induction a with
  | zero =>
      intro val
      exact ⟨0, le_rfl, by simp [reduceAces], by omega, Or.inr rfl⟩
  | succ a ih =>
      intro val
      by_cases h : 21 < val
      · obtain ⟨k, hk, heq, hgt, hstop⟩ := ih (val - 10)
        refine ⟨k + 1, by omega, ?_, ?_, ?_⟩
        · simpa [reduceAces, h] using heq.trans (by omega)
        · intro j hj
          match j with
          | 0 => simpa using h
          | j + 1 =>
              have := hgt j (by omega)
              omega
        · rcases hstop with h1 | h1
          · exact Or.inl (by omega)
          · exact Or.inr (by omega)
      · exact ⟨0, by omega, by simp [reduceAces, h], by omega, Or.inl (by omega)⟩

/-- Every Ace contributes 11 to the raw sum, so the raw sum dominates
11 times the Ace count. -/
lemma eleven_mul_countAces_le_rawSum (hand : List Rank) :
    11 * countAces hand ≤ rawSum hand := by
  induction hand with
  | nil => simp [countAces, rawSum]
  | cons c t ih =>
      have hc : 11 * (if c = Rank.A then 1 else 0) ≤ cardValue c := by
        cases c <;> simp [cardValue]
      simp only [countAces, rawSum, List.count_cons, List.map_cons, List.sum_cons] at *
      rcases Decidable.em (c = Rank.A) with h | h <;> simp [h] at hc ⊢ <;> omega

/-- Hard total of a hand (every Ace counted as 1); used as the termination
measure of the draw loops. -/
def hardTotal (hand : List Rank) : Nat :=
  rawSum hand - 10 * countAces hand

/-- The hard total never exceeds the computed hand value. -/
lemma hardTotal_le_handValue (hand : List Rank) :
    hardTotal hand ≤ handValue hand := by
  obtain ⟨k, hk, heq, -, -⟩ := reduceAces_char (countAces hand) (rawSum hand)
  have := eleven_mul_countAces_le_rawSum hand
  unfold hardTotal handValue
  omega

/-- Raw sum of a hand with one card appended. -/
lemma rawSum_append (hand : List Rank) (c : Rank) :
    rawSum (hand ++ [c]) = rawSum hand + cardValue c := by
  simp [rawSum]

/-- Ace count of a hand with one card appended. -/
lemma countAces_append (hand : List Rank) (c : Rank) :
    countAces (hand ++ [c]) = countAces hand + (if c = Rank.A then 1 else 0) := by
  simp [countAces, List.count_append, List.count_cons, List.count_nil]

/-- Appending a card strictly increases the hard total. -/
lemma hardTotal_lt_append (hand : List Rank) (c : Rank) :
    hardTotal hand < hardTotal (hand ++ [c]) := by
  have h1 := eleven_mul_countAces_le_rawSum hand
  have hc : 10 * (if c = Rank.A then 1 else 0) < cardValue c := by
    cases c <;> simp [cardValue]
  unfold hardTotal
  rw [rawSum_append, countAces_append]
  rcases Decidable.em (c = Rank.A) with h | h <;> simp [h] at hc ⊢ <;> omega

/-- Player actions returned by the strategy tables (`"hit"`, `"stand"`,
`"double"` strings in the Python sources). -/
inductive Action where
  | hit | stand | double
  deriving DecidableEq

/-- Variant rule flags: the `rules` dictionaries in
`blackjack_simulator_full.py` lines 44-69. -/
structure Rules where
  blackjack_payout : ℚ
  dealer_hits_soft_17 : Bool
  dealer_push_22 : Bool
  free_doubles : Bool
  five_card_charlie : Bool
  counting_allowed : Bool

/-- The `"Crown Blackjack"` ruleset (`blackjack_simulator_full.py` lines
45-52) with counting disabled. -/
def crownRules : Rules :=
  ⟨3/2, true, false, false, false, false⟩

/-- The `"Blackjack Plus"` ruleset (`blackjack_simulator_full.py` lines
53-60). -/
def bjPlusRules : Rules :=
  ⟨6/5, true, true, false, true, false⟩

/-- The `"Free Bet Blackjack"` ruleset (`blackjack_simulator_full.py` lines
61-68). -/
def freeBetRules : Rules :=
  ⟨3/2, true, true, true, false, false⟩

/-- `basic_strategy(player, dealer_upcard, can_double)` from
`blackjack_simulator_full.py` lines 99-113. -/
def full_basic_strategy (player : List Rank) (dealer_upcard : Rank)
    (can_double : Bool) : Action :=
  let total := handValue player
  if player.length = 2 ∧ can_double = true ∧ (total = 9 ∨ total = 10 ∨ total = 11) then
    Action.double
  else if 17 ≤ total then Action.stand
  else if 13 ≤ total ∧ total ≤ 16 then
    if dealer_upcard ∈ [Rank.r2, Rank.r3, Rank.r4, Rank.r5, Rank.r6] then Action.stand
    else Action.hit
  else if total = 12 then
    if dealer_upcard ∈ [Rank.r4, Rank.r5, Rank.r6] then Action.stand
    else Action.hit
  else Action.hit

/-- Loop guard of `dealer_play` (`blackjack_simulator_full.py` lines 87-97):
the dealer draws another card exactly when none of the return branches fire,
i.e. the value is below 17, or it is exactly 17 with `is_soft` true and the
hit-soft-17 rule enabled. -/
def dealer_hits (h17 : Bool) (dealer : List Rank) : Bool :=
  let val := handValue dealer
  if 21 < val then false
  else if 17 < val then false
  else if val = 17 ∧ is_soft dealer = true ∧ h17 = true then true
  else if val < 17 then true
  else false

/-- `dealer_play(dealer, deck)` from `blackjack_simulator_full.py` lines
87-97; drawing from an empty deck (`deck.pop()` raising `IndexError`) is
`none`. -/
def dealer_play (h17 : Bool) : List Rank → List Rank → Option (List Rank × List Rank)
  | dealer, [] => if dealer_hits h17 dealer then none else some (dealer, [])
  | dealer, c :: rest =>
      if dealer_hits h17 dealer then dealer_play h17 (dealer ++ [c]) rest
      else some (dealer, c :: rest)

/-- The player hit loop of `simulate_hand` (`blackjack_simulator_full.py`
lines 149-153): while the strategy says hit, pop a card; on busting return
immediately with the bust flag set.  The re-queried action always uses
`can_double=False`; this also matches the entry check because the loop is
only entered when the initial (`can_double=True`) action was not
`"double"`, and on such hands the two calls agree. -/
def full_player_loop (dealer_up : Rank) :
    List Rank → List Rank → Option (List Rank × List Rank × Bool)
  | player, [] =>
      if full_basic_strategy player dealer_up false = Action.hit then none
      else some (player, [], false)
  | player, c :: rest =>
      if full_basic_strategy player dealer_up false = Action.hit then
        let p := player ++ [c]
        if 21 < handValue p then some (p, rest, true)
        else full_player_loop dealer_up p rest
      else some (player, c :: rest, false)

/-- Terminal resolution of `simulate_hand` after the dealer has played
(`blackjack_simulator_full.py` lines 158-173): five-card charlie first, then
dealer bust, then — only afterwards — the dealer-push-22 branch, then the
total comparison.  Returns `(new bankroll, running count, remaining deck)`. -/
def settle (rules : Rules) (bet : ℚ) (player dealer deck : List Rank)
    (running_count : Int) (bankroll : ℚ) : ℚ × Int × List Rank :=
  if rules.five_card_charlie = true ∧ 5 ≤ player.length ∧ handValue player ≤ 21 then
    (bankroll + bet, running_count, deck)
  else
    let dealer_val := handValue dealer
    let player_val := handValue player
    if 21 < dealer_val then (bankroll + bet, running_count, deck)
    else if rules.dealer_push_22 = true ∧ dealer_val = 22 then
      (bankroll, running_count, deck)
    else if dealer_val < player_val then (bankroll + bet, running_count, deck)
    else if player_val < dealer_val then (bankroll - bet, running_count, deck)
    else (bankroll, running_count, deck)

/-- Card-counting bet sizing of `simulate_hand`
(`blackjack_simulator_full.py` lines 117-123): start from the table minimum,
scale by `min(true_count, 10)` when counting is allowed and the true count is
at least 1, and cap at the bankroll. -/
def full_bet_size (rules : Rules) (min_bet true_count bankroll : ℚ) : ℚ :=
  let bet0 : ℚ := min_bet
  let bet1 := if rules.counting_allowed = true ∧ 1 ≤ true_count then
      bet0 * min true_count 10 else bet0
  min bankroll bet1

/-- `simulate_hand(deck, true_count, bankroll)` from
`blackjack_simulator_full.py` lines 115-173, with the module globals
`current_rules` and `min_bet` passed explicitly.  The returned
`running_count` is, as in the source, the Hi-Lo sum of the four initially
dealt cards only (line 131); the remaining deck is returned because the
Python code mutates the shoe in place. -/
def simulate_hand (rules : Rules) (min_bet : ℚ) (deck : List Rank)
    (true_count : ℚ) (bankroll : ℚ) : Option (ℚ × Int × List Rank) :=
  let bet := full_bet_size rules min_bet true_count bankroll
  match deck with
  | p1 :: p2 :: d1 :: d2 :: rest =>
    let player := [p1, p2]
    let dealer := [d1, d2]
    let dealer_up := d1
    let running_count := hiLoSum (player ++ dealer)
    if handValue player = 21 ∧ player.length = 2 then
      if handValue dealer = 21 ∧ dealer.length = 2 then
        some (bankroll, running_count, rest)
      else some (bankroll + bet * rules.blackjack_payout, running_count, rest)
    else if handValue dealer = 21 ∧ dealer.length = 2 then
      some (bankroll - bet, running_count, rest)
    else if full_basic_strategy player dealer_up true = Action.double then
      match rest with
      | [] => none
      | second :: rest2 =>
        let player2 := player ++ [second]
        let bet2 := min bankroll (bet * 2)
        match dealer_play rules.dealer_hits_soft_17 dealer rest2 with
        | none => none
        | some (dealerF, deck3) =>
            some (settle rules bet2 player2 dealerF deck3 running_count bankroll)
    else
      match full_player_loop dealer_up player rest with
      | none => none
      | some (playerF, deck2, busted) =>
        if busted = true then some (bankroll - bet, running_count, deck2)
        else
          match dealer_play rules.dealer_hits_soft_17 dealer deck2 with
          | none => none
          | some (dealerF, deck3) =>
              some (settle rules bet playerF dealerF deck3 running_count bankroll)
  | _ => none

/-- Per-session loop of `blackjack_simulator_full.py` lines 183-202,
recursing on the remaining hand budget.  State: index into the stream of
freshly shuffled shoes, current shoe, running count, bankroll.  Each
iteration: reshuffle when fewer than `416 * 0.25` cards remain (resetting the
count), record the true count, play one hand, accumulate the returned count
delta, record the bankroll, and stop after a hand that leaves the bankroll at
or below zero.  Returns `(bankroll trajectory, true-count history)`. -/
def full_session_aux (rules : Rules) (min_bet : ℚ) (shoes : Nat → List Rank) :
    Nat → Nat → List Rank → Int → ℚ → Option (List ℚ × List ℚ)
  | 0, _, _, _, _ => some ([], [])
  | n + 1, si, shoe0, rc0, bankroll =>
    let t := if ((shoe0.length : ℚ)) < 416 * (25 / 100) then
        (shoes si, (0 : Int), si + 1) else (shoe0, rc0, si)
    let shoe := t.1
    let rc := t.2.1
    let decks_remaining : ℚ := (shoe.length : ℚ) / 52
    let tc : ℚ := if 0 < decks_remaining then (rc : ℚ) / decks_remaining else 0
    match simulate_hand rules min_bet shoe tc bankroll with
    | none => none
    | some (b2, delta, shoe2) =>
      if b2 ≤ 0 then some ([b2], [tc])
      else
        Option.map (fun p => (b2 :: p.1, tc :: p.2))
          (full_session_aux rules min_bet shoes n t.2.2 shoe2 (rc + delta) b2)

/-- One simulation run of `blackjack_simulator_full.py` lines 180-202: the
initial shoe is the first shuffled shoe of the stream, counts start at zero. -/
def full_simulate_run (rules : Rules) (min_bet : ℚ) (initial_bankroll : ℚ)
    (shoes : Nat → List Rank) (num_hands : Nat) : Option (List ℚ × List ℚ) :=
  full_session_aux rules min_bet shoes num_hands 1 (shoes 0) 0 initial_bankroll

/-- `deal_card(deck)` from `skycity_blackjack.py` lines 39-40: pop a card
from the deck, and if the deck is empty silently return a uniformly chosen
rank instead (`random.choice(list(CARD_VALUES.keys()))`), modelled by the
fallback stream `fb` consumed at the threaded index.  Returns
`(card, remaining deck, next fallback index)`. -/
def sc_deal_card (fb : Nat → Rank) : List Rank → Nat → Rank × List Rank × Nat
  | [], i => (fb i, [], i + 1)
  | c :: rest, i => (c, rest, i)

/-- `is_blackjack(hand)` from `skycity_blackjack.py` lines 50-51. -/
def sc_is_blackjack (hand : List Rank) : Bool :=
  decide (hand.length = 2) && decide (handValue hand = 21)

/-- Loop guard of `play_dealer_hand` (`skycity_blackjack.py` line 54):
value below 17, or value exactly 17 with an Ace present and a raw
all-Aces-as-11 sum above 17. -/
def sc_dealer_hits (hand : List Rank) : Bool :=
  decide (handValue hand < 17)
    || (decide (handValue hand = 17) && decide (Rank.A ∈ hand)
        && decide (17 < rawSum hand))

/-- A hand the skycity dealer guard wants to hit has value at most 17. -/
lemma sc_dealer_hits_le (hand : List Rank) (h : sc_dealer_hits hand = true) :
    handValue hand ≤ 17 := by
  simp only [sc_dealer_hits, Bool.or_eq_true, Bool.and_eq_true, decide_eq_true_eq] at h
  omega

/-- `play_dealer_hand(deck, hand)` from `skycity_blackjack.py` lines 53-56.
Termination: each appended card strictly increases the hard total, and the
guard only holds while the value — hence the hard total — is at most 17. -/
def sc_play_dealer_hand (fb : Nat → Rank) (deck : List Rank) (hand : List Rank)
    (i : Nat) : List Rank × List Rank × Nat :=
  if h : sc_dealer_hits hand = true then
    let t := sc_deal_card fb deck i
    sc_play_dealer_hand fb t.2.1 (hand ++ [t.1]) t.2.2
  else (hand, deck, i)
termination_by 18 - hardTotal hand
decreasing_by
  have h1 := sc_dealer_hits_le hand h
  have h2 := hardTotal_le_handValue hand
  have h3 := hardTotal_lt_append hand (sc_deal_card fb deck i).1
  omega

/-- `basic_strategy(player_hand, dealer_card)` from `skycity_blackjack.py`
lines 58-67. -/
def sc_basic_strategy (player : List Rank) (dealer_card : Rank) : Action :=
  let value := handValue player
  if value ≤ 11 then Action.hit
  else if 12 ≤ value ∧ value ≤ 16 then
    if dealer_card ∈ [Rank.r2, Rank.r3, Rank.r4, Rank.r5, Rank.r6] then Action.stand
    else Action.hit
  else Action.stand

/-- A hand the skycity strategy wants to hit has value at most 16. -/
lemma sc_basic_strategy_hit_le (player : List Rank) (dealer_card : Rank)
    (h : sc_basic_strategy player dealer_card = Action.hit) :
    handValue player ≤ 16 := by
  simp only [sc_basic_strategy] at h
  split_ifs at h <;> first | omega | simp at h

/-- Player hit loop of `simulate_single_run` (`skycity_blackjack.py` lines
103-106): while the strategy says hit, deal a card, stopping immediately if
the new hand busts. -/
def sc_player_loop (fb : Nat → Rank) (dealer_card : Rank) (player deck : List Rank)
    (i : Nat) : List Rank × List Rank × Nat :=
  if h : sc_basic_strategy player dealer_card = Action.hit then
    let t := sc_deal_card fb deck i
    let p := player ++ [t.1]
    if 21 < handValue p then (p, t.2.1, t.2.2)
    else sc_player_loop fb dealer_card p t.2.1 t.2.2
  else (player, deck, i)
termination_by 17 - hardTotal player
decreasing_by
  have h1 := sc_basic_strategy_hit_le player dealer_card h
  have h2 := hardTotal_le_handValue player
  have h3 := hardTotal_lt_append player (sc_deal_card fb deck i).1
  omega

/-- Hand outcomes of `simulate_single_run` in `skycity_blackjack.py`
(the `'push'`, `'blackjack'`, `'win'`, `'lose'` strings). -/
inductive ScOutcome where
  | push | blackjack | win | lose
  deriving DecidableEq

/-- Settlement chain of `skycity_blackjack.py` lines 124-129. -/
def sc_settle (bankroll bet : ℚ) (o : ScOutcome) : ℚ :=
  if o = ScOutcome.blackjack then bankroll + bet * (3 / 2)
  else if o = ScOutcome.win then bankroll + bet
  else if o = ScOutcome.lose then bankroll - bet
  else bankroll

/-- One hand of `simulate_single_run` (`skycity_blackjack.py` lines 89-131):
flat bet of `MIN_BET = 25`, natural checks, player loop, dealer loop,
comparison, settlement.  Returns `(new bankroll, next fallback index)`; the
per-hand deck is discarded afterwards as in the source (a fresh shuffled deck
is used for every hand). -/
def sc_play_hand (fb : Nat → Rank) (deck : List Rank) (bankroll : ℚ)
    (i : Nat) : ℚ × Nat :=
  let bet : ℚ := 25
  let t1 := sc_deal_card fb deck i
  let t2 := sc_deal_card fb t1.2.1 t1.2.2
  let t3 := sc_deal_card fb t2.2.1 t2.2.2
  let t4 := sc_deal_card fb t3.2.1 t3.2.2
  let player := [t1.1, t2.1]
  let dealer := [t3.1, t4.1]
  let r :=
    if sc_is_blackjack player = true then
      (if sc_is_blackjack dealer = true then ScOutcome.push else ScOutcome.blackjack,
        t4.2.2)
    else if sc_is_blackjack dealer = true then (ScOutcome.lose, t4.2.2)
    else
      let u := sc_player_loop fb t3.1 player t4.2.1 t4.2.2
      if 21 < handValue u.1 then (ScOutcome.lose, u.2.2)
      else
        let v := sc_play_dealer_hand fb u.2.1 dealer u.2.2
        let dealer_score := handValue v.1
        let player_score := handValue u.1
        if 21 < dealer_score then (ScOutcome.win, v.2.2)
        else if player_score < dealer_score then (ScOutcome.lose, v.2.2)
        else if dealer_score < player_score then (ScOutcome.win, v.2.2)
        else (ScOutcome.push, v.2.2)
  (sc_settle bankroll bet r.1, r.2)

/-- Session loop of `simulate_single_run` (`skycity_blackjack.py` lines
77-133), recursing on the remaining hand budget: every hand uses a fresh
shuffled deck from the stream; if the bankroll has dropped below `MIN_BET`
the current bankroll is recorded once more and the session stops. -/
def sc_run_aux (fb : Nat → Rank) (shoes : Nat → List Rank) :
    Nat → Nat → ℚ → Nat → List ℚ
  | 0, _, _, _ => []
  | n + 1, h, bankroll, i =>
      if bankroll < 25 then [bankroll]
      else
        let r := sc_play_hand fb (shoes h) bankroll i
        r.1 :: sc_run_aux fb shoes n (h + 1) r.1 r.2

/-- `simulate_single_run()` from `skycity_blackjack.py` lines 77-133. -/
def sc_simulate_single_run (fb : Nat → Rank) (shoes : Nat → List Rank)
    (initial_bankroll : ℚ) (num_hands : Nat) : List ℚ :=
  sc_run_aux fb shoes num_hands 0 initial_bankroll 0

/-- `get_true_count(running_count, decks_remaining)` from
`blackjack_simulation.py` lines 57-58: divide when the remaining deck count
is positive, otherwise 0. -/
def get_true_count (running_count decks_remaining : ℚ) : ℚ :=
  if 0 < decks_remaining then running_count / decks_remaining else 0

/-- `get_true_count(running_count, decks_remaining)` from
`blackjack_simulation1.py` lines 27-30: 0 when the remaining deck count is
exactly 0, otherwise divide. -/
def sim1_get_true_count (running_count decks_remaining : ℚ) : ℚ :=
  if decks_remaining = 0 then 0 else running_count / decks_remaining

/-- Python 3 `round` to the nearest integer, halves to the even integer,
as applied to the true count in `blackjack_simulation.py` line 77. -/
def pyRound (q : ℚ) : Int :=
  let f := ⌊q⌋
  let r := q - f
  if r < 1 / 2 then f
  else if 1 / 2 < r then f + 1
  else if f % 2 = 0 then f else f + 1

/-- Bet sizing of `blackjack_simulation.py` lines 81-90: count-driven spread
multiplier, bankroll cap, then a doubled (re-capped) bet when the simulated
double-down or split coin flip fires (each an `np.random.rand()` draw,
consumed from `rands` at the threaded index). -/
def simpy_bet_size (min_bet : ℚ) (spread : Int) (rands : Nat → ℚ)
    (true_count : Int) (bankroll : ℚ) (ri : Nat) : ℚ :=
  let bet0 : ℚ := min_bet
  let bet1 := if 1 < true_count then bet0 * ((min spread true_count : Int) : ℚ) else bet0
  let bet2 := min bankroll bet1
  let double_down := rands ri < 10 / 100
  let splittable := rands (ri + 1) < 5 / 100
  if double_down ∨ splittable then min bankroll (bet2 * 2) else bet2

/-- Outcome resolution for one hand of `blackjack_simulation.py` lines
81-113, given the rounded true count and the deck left after the card pop.
The `np.random.choice` categorical draw is modelled by inverse-CDF sampling
of one uniform, as NumPy implements it; the blackjack coin flip on a win
consumes one further uniform.  Returns `(new bankroll, next random index)`. -/
def simpy_bet_and_outcome (min_bet : ℚ) (spread : Int) (rands : Nat → ℚ)
    (true_count : Int) (deck : List Rank) (bankroll : ℚ) (ri : Nat) : ℚ × Nat :=
  let bet := simpy_bet_size min_bet spread rands true_count bankroll ri
  let tens_left : ℚ := ((deck.count Rank.r10 + deck.count Rank.J
    + deck.count Rank.Q + deck.count Rank.K : Nat) : ℚ)
  let aces_left : ℚ := ((deck.count Rank.A : Nat) : ℚ)
  let bj_prob := tens_left / (deck.length : ℚ) * (aces_left / (deck.length : ℚ)) * 2
  let edge : ℚ := 5 / 1000 + 5 / 1000 * (true_count : ℚ)
  let win_prob0 := min (44 / 100 + edge) (52 / 100)
  let lose_prob0 := max (44 / 100 - edge) (36 / 100)
  let push_prob0 := 1 - win_prob0 - lose_prob0
  let s := win_prob0 + lose_prob0 + push_prob0
  let win_prob := win_prob0 / s
  let lose_prob := lose_prob0 / s
  let u := rands (ri + 2)
  if u < win_prob then
    if rands (ri + 3) < bj_prob then (bankroll + bet * (3 / 2), ri + 4)
    else (bankroll + bet, ri + 4)
  else if u < win_prob + lose_prob then (bankroll - bet, ri + 3)
  else (bankroll, ri + 3)

/-- Session loop of `simulate_single_run` in `blackjack_simulation.py`
lines 68-117, recursing on the remaining hand budget.  Each iteration:
reshuffle when fewer than 52 cards remain (resetting the count), pop one
card (`none` models the `IndexError` were the shoe empty), update the
running count, round the true count, size the bet and resolve the hand, and
stop after the bankroll reaches zero or below.  Returns
`(bankroll trajectory, rounded true-count history)`. -/
def simpy_run_aux (min_bet : ℚ) (spread : Int) (shoes : Nat → List Rank)
    (rands : Nat → ℚ) : Nat → Nat → List Rank → Int → ℚ → Nat →
      Option (List ℚ × List Int)
  | 0, _, _, _, _, _ => some ([], [])
  | n + 1, si, deck0, rc0, bankroll, ri =>
    let t := if deck0.length < 52 then (shoes si, (0 : Int), si + 1)
      else (deck0, rc0, si)
    match t.1 with
    | [] => none
    | card :: deck =>
      let rc := t.2.1 + hiLoValue card
      let decks_remaining : ℚ := (deck.length : ℚ) / 52
      let tc := pyRound (get_true_count (rc : ℚ) decks_remaining)
      let r := simpy_bet_and_outcome min_bet spread rands tc deck bankroll ri
      if r.1 ≤ 0 then some ([r.1], [tc])
      else
        Option.map (fun p => (r.1 :: p.1, tc :: p.2))
          (simpy_run_aux min_bet spread shoes rands n t.2.2 deck rc r.1 r.2)

/-- `simulate_single_run()` from `blackjack_simulation.py` lines 60-119. -/
def simpy_simulate_single_run (min_bet : ℚ) (spread : Int) (initial_bankroll : ℚ)
    (shoes : Nat → List Rank) (rands : Nat → ℚ) (num_hands : Nat) :
    Option (List ℚ × List Int) :=
  simpy_run_aux min_bet spread shoes rands num_hands 1 (shoes 0) 0 initial_bankroll 0

/-- Session loop of `simulate_single_run` in `blackjack_simulation1.py`
lines 32-65: same reshuffle/pop/count structure, unrounded true count,
truncating bet multiplier, and a fixed-probability outcome draw
(`p=[0.42, 0.48, 0.10]`, modelled by inverse-CDF sampling of one uniform).
For a true count above 1 the Python `int()` truncation coincides with the
floor. -/
def sim1_run_aux (min_bet : ℚ) (spread : Int) (shoes : Nat → List Rank)
    (rands : Nat → ℚ) : Nat → Nat → List Rank → Int → ℚ → Nat → Option (List ℚ)
  | 0, _, _, _, _, _ => some []
  | n + 1, si, deck0, rc0, bankroll, ri =>
    let t := if deck0.length < 52 then (shoes si, (0 : Int), si + 1)
      else (deck0, rc0, si)
    match t.1 with
    | [] => none
    | card :: deck =>
      let rc := t.2.1 + hiLoValue card
      let true_count := get_true_count (rc : ℚ) ((deck.length : ℚ) / 52)
      let bet1 := if 1 < true_count then
          min_bet * ((min spread ⌊true_count⌋ : Int) : ℚ) else min_bet
      let bet := min bankroll bet1
      let u := rands ri
      let b2 := if u < 42 / 100 then bankroll + bet
        else if u < 90 / 100 then bankroll - bet
        else bankroll
      if b2 ≤ 0 then some [b2]
      else
        Option.map (fun l => b2 :: l)
          (sim1_run_aux min_bet spread shoes rands n t.2.2 deck rc b2 (ri + 1))

/-- `simulate_single_run()` from `blackjack_simulation1.py` lines 32-65. -/
def sim1_simulate_single_run (min_bet : ℚ) (spread : Int) (initial_bankroll : ℚ)
    (shoes : Nat → List Rank) (rands : Nat → ℚ) (num_hands : Nat) : Option (List ℚ) :=
  sim1_run_aux min_bet spread shoes rands num_hands 1 (shoes 0) 0 initial_bankroll 0

/-- Arithmetic mean of a list of rationals (`np.mean` over final
bankrolls). -/
def listMean (l : List ℚ) : ℚ :=
  l.sum / (l.length : ℚ)

/-- Population variance of a list of rationals; `np.std` is its square
root. -/
def listVariance (l : List ℚ) : ℚ :=
  listMean (l.map (fun x => (x - listMean l) ^ 2))

/-- `roi = ((final_bankrolls.mean() - initial_bankroll) / initial_bankroll)
 * 100`, identical in all three dashboard variants. -/
def roiOf (final_mean initial_bankroll : ℚ) : ℚ :=
  (final_mean - initial_bankroll) / initial_bankroll * 100

/-- Sharpe ratio of `blackjack_simulation.py` lines 142-143:
`roi / std_dev_pct` with `std_dev_pct = std_dev / initial * 100`, and 0 when
that denominator is 0. -/
def simpy_sharpe_ratio (roi std_dev initial_bankroll : ℚ) : ℚ :=
  let std_dev_pct := std_dev / initial_bankroll * 100
  if std_dev_pct ≠ 0 then roi / std_dev_pct else 0

/-- Sharpe ratio of `blackjack_simulator_full.py` line 221:
`roi / (std_dev / initial_bankroll)` when the standard deviation is nonzero,
without the conversion of the denominator to a percentage. -/
def full_sharpe_ratio (roi std_dev initial_bankroll : ℚ) : ℚ :=
  if std_dev ≠ 0 then roi / (std_dev / initial_bankroll) else 0

/-- Sharpe ratio of `skycity_blackjack.py` line 147:
`roi / (std_dev / initial_bankroll)` when the standard deviation is
positive. -/
def sc_sharpe_ratio (roi std_dev initial_bankroll : ℚ) : ℚ :=
  if 0 < std_dev then roi / (std_dev / initial_bankroll) else 0

/-- Ratio the claim describes, following the spec's words: ROI divided by
the standard deviation expressed as a percentage of the initial bankroll,
and 0 when the standard deviation is 0.  Stated separately from the source
formulas so the two can be compared. -/
def claimed_sharpe_ratio (roi std_dev initial_bankroll : ℚ) : ℚ :=
  if std_dev ≠ 0 then roi / (std_dev / initial_bankroll * 100) else 0

/-- The settlement step pays the bet, takes the bet, or leaves the bankroll
unchanged. -/
lemma settle_fst (rules : Rules) (bet : ℚ) (player dealer deck : List Rank)
    (rc : Int) (b : ℚ) :
    (settle rules bet player dealer deck rc b).1 = b + bet ∨
      (settle rules bet player dealer deck rc b).1 = b - bet ∨
      (settle rules bet player dealer deck rc b).1 = b := by
  simp only [settle]
  split_ifs <;> simp

/-- The sized bet is nonnegative whenever the table minimum and the bankroll
are. -/
lemma full_bet_size_nonneg (rules : Rules) (min_bet tc b : ℚ)
    (hmb : 0 ≤ min_bet) (hb : 0 ≤ b) :
    0 ≤ full_bet_size rules min_bet tc b := by
  unfold full_bet_size
  refine le_min hb ?_
  split_ifs with hc
  · exact mul_nonneg hmb (le_min (le_trans zero_le_one hc.2) (by norm_num))
  · exact hmb

/-- The sized bet never exceeds the bankroll. -/
lemma full_bet_size_le (rules : Rules) (min_bet tc b : ℚ) :
    full_bet_size rules min_bet tc b ≤ b := by
  unfold full_bet_size
  exact min_le_left _ _

/-- Bankroll delta of one resolved hand of `blackjack_simulator_full.py`:
some wager `bet` with `0 ≤ bet ≤ bankroll` is settled at the blackjack
payout, at even money, as a loss of `bet`, or as a push. -/
lemma simulate_hand_cases (rules : Rules) (min_bet : ℚ) (deck : List Rank)
    (tc b : ℚ) (hmb : 0 ≤ min_bet) (hb : 0 ≤ b) (r : ℚ × Int × List Rank)
    (h : simulate_hand rules min_bet deck tc b = some r) :
    ∃ bet : ℚ, 0 ≤ bet ∧ bet ≤ b ∧
      (r.1 = b + bet * rules.blackjack_payout ∨ r.1 = b + bet ∨
        r.1 = b - bet ∨ r.1 = b) := by
  match deck with
  | [] => simp [simulate_hand] at h
  | [_] => simp [simulate_hand] at h
  | [_, _] => simp [simulate_hand] at h
  | [_, _, _] => simp [simulate_hand] at h
  | p1 :: p2 :: d1 :: d2 :: rest =>
    have hbet0 := full_bet_size_nonneg rules min_bet tc b hmb hb
    have hbetb := full_bet_size_le rules min_bet tc b
    set bet := full_bet_size rules min_bet tc b with hbet
    simp only [simulate_hand, ← hbet] at h
    split_ifs at h with h1 h2 h3 h4
    · exact ⟨bet, hbet0, hbetb, by cases h; simp⟩
    · exact ⟨bet, hbet0, hbetb, by cases h; simp⟩
    · exact ⟨bet, hbet0, hbetb, by cases h; simp⟩
    · match rest with
      | [] => simp at h
      | second :: rest2 =>
        simp only [] at h
        have hb2a : (0:ℚ) ≤ min b (bet * 2) := le_min hb (by linarith)
        have hb2b : min b (bet * 2) ≤ b := min_le_left _ _
        cases hdp : dealer_play rules.dealer_hits_soft_17 [d1, d2] rest2 with
        | none => rw [hdp] at h; simp at h
        | some pr =>
          rw [hdp] at h
          simp only [Option.some_inj] at h
          subst h
          rcases settle_fst rules (min b (bet * 2)) [p1, p2, second] pr.1
              pr.2 (hiLoSum [p1, p2, d1, d2]) b with hs | hs | hs <;>
            exact ⟨min b (bet * 2), hb2a, hb2b, by simp [hs]⟩
    · cases hpl : full_player_loop d1 [p1, p2] rest with
      | none => rw [hpl] at h; simp at h
      | some pl =>
        rw [hpl] at h
        simp only [] at h
        split_ifs at h with h5
        · exact ⟨bet, hbet0, hbetb, by cases h; simp⟩
        · cases hdp : dealer_play rules.dealer_hits_soft_17 [d1, d2] pl.2.1 with
          | none => rw [hdp] at h; simp at h
          | some pr =>
            rw [hdp] at h
            simp only [Option.some_inj] at h
            subst h
            rcases settle_fst rules bet pl.1 pr.1 pr.2
                (hiLoSum [p1, p2, d1, d2]) b with hs | hs | hs <;>
              exact ⟨bet, hbet0, hbetb, by simp [hs]⟩

/-- The abstract-hand bet of `blackjack_simulation.py` is nonnegative
whenever the table minimum, the spread and the bankroll are. -/
lemma simpy_bet_size_nonneg (min_bet : ℚ) (spread : Int) (rands : Nat → ℚ)
    (tc : Int) (b : ℚ) (ri : Nat) (hmb : 0 ≤ min_bet) (hsp : 0 ≤ spread)
    (hb : 0 ≤ b) : 0 ≤ simpy_bet_size min_bet spread rands tc b ri := by
  have h1 : (0:ℚ) ≤ (if 1 < tc then min_bet * ((min spread tc : Int) : ℚ) else min_bet) := by
    split_ifs with h
    · have h2 : (0:Int) ≤ min spread tc := le_min hsp (by omega)
      exact mul_nonneg hmb (by exact_mod_cast h2)
    · exact hmb
  have h2 : (0:ℚ) ≤ min b (if 1 < tc then min_bet * ((min spread tc : Int) : ℚ) else min_bet) :=
    le_min hb h1
  simp only [simpy_bet_size]
  split_ifs at h2 ⊢ <;>
    first
      | exact le_min hb (by linarith)
      | exact h2
      | exact le_min hb (by simp_all; linarith)

/-- The abstract-hand bet of `blackjack_simulation.py` never exceeds the
bankroll, given a nonnegative table minimum, spread and bankroll. -/
lemma simpy_bet_size_le (min_bet : ℚ) (spread : Int) (rands : Nat → ℚ)
    (tc : Int) (b : ℚ) (ri : Nat) (hmb : 0 ≤ min_bet) (hsp : 0 ≤ spread)
    (hb : 0 ≤ b) : simpy_bet_size min_bet spread rands tc b ri ≤ b := by
  simp only [simpy_bet_size]
  split_ifs <;> exact min_le_left _ _

/-- Bankroll delta of one abstract hand of `blackjack_simulation.py`: the
sized bet is won with the blackjack bonus, won, lost, or pushed. -/
lemma simpy_bet_and_outcome_cases (min_bet : ℚ) (spread : Int) (rands : Nat → ℚ)
    (tc : Int) (deck : List Rank) (b : ℚ) (ri : Nat)
    (hmb : 0 ≤ min_bet) (hsp : 0 ≤ spread) (hb : 0 ≤ b) :
    ∃ bet : ℚ, 0 ≤ bet ∧ bet ≤ b ∧
      ((simpy_bet_and_outcome min_bet spread rands tc deck b ri).1 = b + bet * (3 / 2) ∨
        (simpy_bet_and_outcome min_bet spread rands tc deck b ri).1 = b + bet ∨
        (simpy_bet_and_outcome min_bet spread rands tc deck b ri).1 = b - bet ∨
        (simpy_bet_and_outcome min_bet spread rands tc deck b ri).1 = b) := by
  refine ⟨simpy_bet_size min_bet spread rands tc b ri,
    simpy_bet_size_nonneg min_bet spread rands tc b ri hmb hsp hb,
    simpy_bet_size_le min_bet spread rands tc b ri hmb hsp hb, ?_⟩
  simp only [simpy_bet_and_outcome]
  split_ifs <;> simp

/-- The skycity settlement pays the 3:2 bonus, the bet, takes the bet, or
leaves the bankroll unchanged. -/
lemma sc_settle_cases (b bet : ℚ) (o : ScOutcome) :
    sc_settle b bet o = b + bet * (3 / 2) ∨ sc_settle b bet o = b + bet ∨
      sc_settle b bet o = b - bet ∨ sc_settle b bet o = b := by
  cases o <;> simp [sc_settle]

/-- Every skycity hand settles the flat bet of 25 on some outcome. -/
lemma sc_play_hand_fst (fb : Nat → Rank) (deck : List Rank) (b : ℚ) (i : Nat) :
    ∃ o : ScOutcome, (sc_play_hand fb deck b i).1 = sc_settle b 25 o :=
  ⟨_, rfl⟩

/-- Bankroll delta of one skycity hand: the flat bet of 25 — at most the
bankroll whenever the session guard admitted the hand — is settled at the
3:2 bonus, at even money, as a loss of 25, or as a push. -/
lemma sc_play_hand_cases (fb : Nat → Rank) (deck : List Rank) (b : ℚ) (i : Nat)
    (hge : 25 ≤ b) :
    ∃ bet : ℚ, 0 ≤ bet ∧ bet ≤ b ∧
      ((sc_play_hand fb deck b i).1 = b + bet * (3 / 2) ∨
        (sc_play_hand fb deck b i).1 = b + bet ∨
        (sc_play_hand fb deck b i).1 = b - bet ∨
        (sc_play_hand fb deck b i).1 = b) := by
  obtain ⟨o, ho⟩ := sc_play_hand_fst fb deck b i
  refine ⟨25, by norm_num, hge, ?_⟩
  rcases sc_settle_cases b 25 o with hc | hc | hc | hc <;> rw [ho, hc] <;> simp

/-- The skycity session guard: with the bankroll below the flat bet of 25 the
session records the current bankroll once more and plays no further hand. -/
lemma sc_run_aux_stop (fb : Nat → Rank) (shoes : Nat → List Rank) (n h : Nat)
    (b : ℚ) (i : Nat) (hlt : b < 25) :
    sc_run_aux fb shoes (n + 1) h b i = [b] := by
  simp [sc_run_aux, hlt]

/-- A resolved hand of `blackjack_simulator_full.py` leaves the bankroll
nonnegative (the loss is bounded by the capped bet). -/
lemma simulate_hand_fst_nonneg (rules : Rules) (min_bet : ℚ)
    (hp : 0 ≤ rules.blackjack_payout) (hmb : 0 ≤ min_bet) :
    ∀ (deck : List Rank) (tc b : ℚ) (r : ℚ × Int × List Rank), 0 ≤ b →
      simulate_hand rules min_bet deck tc b = some r → 0 ≤ r.1 := by
  intro deck tc b r hb h
  obtain ⟨bet, h0, hle, hc⟩ := simulate_hand_cases rules min_bet deck tc b hmb hb r h
  have := mul_nonneg h0 hp
  rcases hc with hc | hc | hc | hc <;> linarith

/-- An abstract hand of `blackjack_simulation.py` leaves the bankroll
nonnegative. -/
lemma simpy_bet_and_outcome_fst_nonneg (min_bet : ℚ) (spread : Int)
    (rands : Nat → ℚ) (hmb : 0 ≤ min_bet) (hsp : 0 ≤ spread) :
    ∀ (tc : Int) (deck : List Rank) (b : ℚ) (ri : Nat), 0 ≤ b →
      0 ≤ (simpy_bet_and_outcome min_bet spread rands tc deck b ri).1 := by
  intro tc deck b ri hb
  obtain ⟨bet, h0, hle, hc⟩ :=
    simpy_bet_and_outcome_cases min_bet spread rands tc deck b ri hmb hsp hb
  rcases hc with hc | hc | hc | hc <;> linarith

/-- Non-negativity of every recorded bankroll in a
`blackjack_simulator_full.py` session (assuming nonnegative payout, table
minimum and starting bankroll). -/
lemma full_session_nonneg (rules : Rules) (min_bet : ℚ) (shoes : Nat → List Rank)
    (hp : 0 ≤ rules.blackjack_payout) (hmb : 0 ≤ min_bet) :
    ∀ (n si : Nat) (shoe : List Rank) (rc : Int) (b : ℚ), 0 ≤ b →
      ∀ traj, full_session_aux rules min_bet shoes n si shoe rc b = some traj →
        ∀ x ∈ traj.1, 0 ≤ x := by
  intro n
  induction n with
  | zero =>
      intro si shoe rc b hb traj h x hx
      simp only [full_session_aux, Option.some_inj] at h
      subst h
      simp at hx
  | succ n ih =>
      intro si shoe rc b hb traj h x hx
      simp only [full_session_aux] at h
      split at h
      · exact absurd h (by simp)
      · rename_i b2 delta shoe2 heq
        have hstep : 0 ≤ b2 :=
          simulate_hand_fst_nonneg rules min_bet hp hmb _ _ b (b2, delta, shoe2) hb heq
        split at h
        · injection h with h2
          subst h2
          simp at hx
          rw [hx]
          exact hstep
        · rcases Option.map_eq_some'.mp h with ⟨p, hp2, rfl⟩
          simp only [List.mem_cons] at hx
          rcases hx with rfl | hx
          · exact hstep
          · exact ih _ _ _ b2 hstep p hp2 x hx

/-- Non-negativity of every recorded bankroll in a
`blackjack_simulation.py` session. -/
lemma simpy_session_nonneg (min_bet : ℚ) (spread : Int) (shoes : Nat → List Rank)
    (rands : Nat → ℚ) (hmb : 0 ≤ min_bet) (hsp : 0 ≤ spread) :
    ∀ (n si : Nat) (deck : List Rank) (rc : Int) (b : ℚ) (ri : Nat), 0 ≤ b →
      ∀ traj, simpy_run_aux min_bet spread shoes rands n si deck rc b ri = some traj →
        ∀ x ∈ traj.1, 0 ≤ x := by
  intro n
  induction n with
  | zero =>
      intro si deck rc b ri hb traj h x hx
      simp only [simpy_run_aux, Option.some_inj] at h
      subst h
      simp at hx
  | succ n ih =>
      intro si deck rc b ri hb traj h x hx
      simp only [simpy_run_aux] at h
      split at h
      · exact absurd h (by simp)
      · split at h <;> split at h <;>
          first
            | (injection h with h2
               subst h2
               simp at hx
               rw [hx]
               exact simpy_bet_and_outcome_fst_nonneg min_bet spread rands hmb hsp _ _ _ _ hb)
            | (rcases Option.map_eq_some'.mp h with ⟨p, hp2, rfl⟩
               simp only [List.mem_cons] at hx
               rcases hx with rfl | hx
               · exact simpy_bet_and_outcome_fst_nonneg min_bet spread rands hmb hsp _ _ _ _ hb
               · exact ih _ _ _ _ _
                   (simpy_bet_and_outcome_fst_nonneg min_bet spread rands hmb hsp _ _ _ _ hb)
                   p hp2 x hx)

/-- Non-negativity of every recorded bankroll in a `skycity_blackjack.py`
session: a hand is only played with at least the flat bet of 25 in hand, and
a loss takes exactly the bet. -/
lemma sc_session_nonneg (fb : Nat → Rank) (shoes : Nat → List Rank) :
    ∀ (n h : Nat) (b : ℚ) (i : Nat), 0 ≤ b →
      ∀ x ∈ sc_run_aux fb shoes n h b i, 0 ≤ x := by
  intro n
  induction n with
  | zero =>
      intro h b i hb x hx
      simp [sc_run_aux] at hx
  | succ n ih =>
      intro h b i hb x hx
      simp only [sc_run_aux] at hx
      split_ifs at hx with hlt
      · simp at hx
        rw [hx]
        exact hb
      · obtain ⟨o, ho⟩ := sc_play_hand_fst fb (shoes h) b i
        have hstep : 0 ≤ (sc_play_hand fb (shoes h) b i).1 := by
          rcases sc_settle_cases b 25 o with hc | hc | hc | hc <;>
            rw [ho, hc] <;> linarith [not_lt.mp hlt]
        simp only [List.mem_cons] at hx
        rcases hx with rfl | hx
        · exact hstep
        · exact ih _ _ _ hstep x hx

/-- C1: under the Blackjack Plus ruleset (dealer-push-22 enabled), a hand on
which the dealer finishes at exactly 22 is settled as a player win (bankroll
plus bet), not as a push: the generic dealer-bust branch fires before the
push-22 branch, which is unreachable.  Deck (top first): player 10,8
(stands on 18); dealer 10,6 drawing a 6 to 22; bet 100 on bankroll 1000; the
code pays 1100 where the claim requires an unchanged 1000. -/
theorem c1_dealer22_paid_as_win :
    simulate_hand bjPlusRules 100 [Rank.r10, Rank.r8, Rank.r10, Rank.r6, Rank.r6] 0 1000
        = some (1100, -1, []) ∧
      dealer_play bjPlusRules.dealer_hits_soft_17 [Rank.r10, Rank.r6] [Rank.r6]
        = some ([Rank.r10, Rank.r6, Rank.r6], []) ∧
      handValue [Rank.r10, Rank.r6, Rank.r6] = 22 ∧
      bjPlusRules.dealer_push_22 = true := by
  refine ⟨?_, by decide, by decide, rfl⟩
  norm_num [simulate_hand, full_bet_size, full_player_loop, dealer_play, dealer_hits,
    full_basic_strategy, is_soft, settle, handValue, reduceAces, rawSum, countAces,
    hiLoSum, hiLoValue, cardValue, bjPlusRules, min_def] <;> decide

/-- C2: the running-count delta returned by `simulate_hand` covers only the
four initially dealt cards.  On deck (top first) 10,6,10,9,5 under Crown
rules the player hits once (drawing the 5) and all five cards leave the
shoe, yet the returned delta is the Hi-Lo sum -1 of the first four cards;
the Hi-Lo sum of all five cards actually seen is 0. -/
theorem c2_count_misses_hit_cards :
    simulate_hand crownRules 100 [Rank.r10, Rank.r6, Rank.r10, Rank.r9, Rank.r5] 0 1000
        = some (1100, -1, []) ∧
      hiLoSum [Rank.r10, Rank.r6, Rank.r10, Rank.r9] = -1 ∧
      hiLoSum [Rank.r10, Rank.r6, Rank.r10, Rank.r9, Rank.r5] = 0 := by
  refine ⟨?_, by decide, by decide⟩
  norm_num [simulate_hand, full_bet_size, full_player_loop, dealer_play, dealer_hits,
    full_basic_strategy, is_soft, settle, handValue, reduceAces, rawSum, countAces,
    hiLoSum, hiLoValue, cardValue, crownRules, min_def] <;> decide

/-- C3 counterexample: for final bankrolls [100, 140] with initial bankroll
100 (population standard deviation 20, ROI 20), the ratio reported by
`blackjack_simulator_full.py` is 100, while ROI divided by the standard
deviation expressed as a percentage of the initial bankroll is 1; the
`skycity_blackjack.py` formula agrees with the former, so the claim fails on
those two variants. -/
theorem c3_sharpe_counterexample :
    (20 : ℚ) ^ 2 = listVariance [100, 140] ∧ (0 : ℚ) ≤ 20 ∧
      roiOf (listMean [100, 140]) 100 = 20 ∧
      full_sharpe_ratio (roiOf (listMean [100, 140]) 100) 20 100 = 100 ∧
      sc_sharpe_ratio (roiOf (listMean [100, 140]) 100) 20 100 = 100 ∧
      claimed_sharpe_ratio (roiOf (listMean [100, 140]) 100) 20 100 = 1 ∧
      (100 : ℚ) ≠ 1 := by
  norm_num [listVariance, listMean, roiOf, full_sharpe_ratio, sc_sharpe_ratio,
    claimed_sharpe_ratio]

/-- C3 amended: with a nonnegative standard deviation and a positive initial
bankroll, `blackjack_simulation.py` reports exactly the claimed ratio
(ROI / (stddev / initial × 100)), while `blackjack_simulator_full.py` and
`skycity_blackjack.py` report 100 times the claimed ratio — they divide by
stddev / initial without the percentage conversion; all three report 0 when
the standard deviation is zero. -/
theorem c3_sharpe_amended (roi std_dev initial : ℚ) (h0 : 0 ≤ std_dev)
    (hi : 0 < initial) :
    simpy_sharpe_ratio roi std_dev initial = claimed_sharpe_ratio roi std_dev initial ∧
      full_sharpe_ratio roi std_dev initial =
        100 * claimed_sharpe_ratio roi std_dev initial ∧
      sc_sharpe_ratio roi std_dev initial =
        100 * claimed_sharpe_ratio roi std_dev initial := by
  have hine : initial ≠ 0 := ne_of_gt hi
  unfold simpy_sharpe_ratio full_sharpe_ratio sc_sharpe_ratio claimed_sharpe_ratio
  rcases eq_or_lt_of_le h0 with h | h
  · rw [← h]
    norm_num
  · have hne : std_dev ≠ 0 := ne_of_gt h
    have hpct : std_dev / initial * 100 ≠ 0 := by positivity
    rw [if_pos hpct, if_pos hne, if_pos hne, if_pos h]
    refine ⟨rfl, ?_, ?_⟩ <;> (field_simp; ring)

/-- C3 witness: the amended statement at ROI 20, standard deviation 20,
initial bankroll 100. -/
theorem c3_sharpe_amended_w :
    simpy_sharpe_ratio 20 20 100 = claimed_sharpe_ratio 20 20 100 ∧
      full_sharpe_ratio 20 20 100 = 100 * claimed_sharpe_ratio 20 20 100 ∧
      sc_sharpe_ratio 20 20 100 = 100 * claimed_sharpe_ratio 20 20 100 :=
  c3_sharpe_amended 20 20 100 (by norm_num) (by norm_num)

/-- C4: determinism of the two counting-session simulators.  Randomness is
embedded as explicit injected streams (shuffled decks and uniform draws);
two runs with identical configuration and identical streams — i.e. the same
seed — produce identical bankroll trajectories (and identical parallel
true-count histories). -/
theorem c4_determinism (min_bet : ℚ) (spread : Int) (initial : ℚ)
    (num_hands : Nat) (shoes1 shoes2 : Nat → List Rank) (rands1 rands2 : Nat → ℚ)
    (hs : shoes1 = shoes2) (hr : rands1 = rands2) :
    simpy_simulate_single_run min_bet spread initial shoes1 rands1 num_hands =
        simpy_simulate_single_run min_bet spread initial shoes2 rands2 num_hands ∧
      sim1_simulate_single_run min_bet spread initial shoes1 rands1 num_hands =
        sim1_simulate_single_run min_bet spread initial shoes2 rands2 num_hands := by
  subst hs
  subst hr
  exact ⟨rfl, rfl⟩

/-- C4 witness: both runners at a concrete configuration and concrete equal
streams. -/
theorem c4_determinism_w :
    simpy_simulate_single_run 100 10 1000 (fun _ => []) (fun _ => 0) 3 =
        simpy_simulate_single_run 100 10 1000 (fun _ => []) (fun _ => 0) 3 ∧
      sim1_simulate_single_run 100 10 1000 (fun _ => []) (fun _ => 0) 3 =
        sim1_simulate_single_run 100 10 1000 (fun _ => []) (fun _ => 0) 3 :=
  c4_determinism 100 10 1000 3 _ _ _ _ rfl rfl

/-- C5 counterexample: with fixed running count -1 the true count strictly
increases (from -1 to -1/2) as the remaining cards grow from 52 to 104, in
both variants of `get_true_count`; it is therefore not monotonically
decreasing in the remaining-deck-count for every fixed running count. -/
theorem c5_true_count_counterexample :
    get_true_count (-1) ((52 : ℚ) / 52) < get_true_count (-1) ((104 : ℚ) / 52) ∧
      sim1_get_true_count (-1) ((52 : ℚ) / 52) <
        sim1_get_true_count (-1) ((104 : ℚ) / 52) := by
  norm_num [get_true_count, sim1_get_true_count]

/-- C5 amended: at its call sites (remaining-deck-count = remaining cards
divided by 52) the true count equals runningCount / (remainingCards / 52) and
is 0 when remainingCards is 0, in both variants; and for every fixed
NONNEGATIVE running count the true count is weakly decreasing in the
remaining-deck-count over positive deck counts. -/
theorem c5_true_count_amended :
    (∀ (rc : ℚ) (r : Nat), get_true_count rc ((r : ℚ) / 52) =
        if r = 0 then 0 else rc / ((r : ℚ) / 52)) ∧
      (∀ (rc : ℚ) (r : Nat), sim1_get_true_count rc ((r : ℚ) / 52) =
        if r = 0 then 0 else rc / ((r : ℚ) / 52)) ∧
      (∀ (rc d1 d2 : ℚ), 0 ≤ rc → 0 < d1 → d1 ≤ d2 →
        get_true_count rc d2 ≤ get_true_count rc d1) ∧
      (∀ (rc d1 d2 : ℚ), 0 ≤ rc → 0 < d1 → d1 ≤ d2 →
        sim1_get_true_count rc d2 ≤ sim1_get_true_count rc d1) := by
  have key : ∀ (rc d1 d2 : ℚ), 0 ≤ rc → 0 < d1 → d1 ≤ d2 → rc / d2 ≤ rc / d1 := by
    intro rc d1 d2 h0 h1 h12
    gcongr
  refine ⟨?_, ?_, ?_, ?_⟩
  · intro rc r
    rcases Nat.eq_zero_or_pos r with h | h
    · subst h
      simp [get_true_count]
    · rw [get_true_count, if_pos (by positivity), if_neg (by omega)]
  · intro rc r
    rcases Nat.eq_zero_or_pos r with h | h
    · subst h
      simp [sim1_get_true_count]
    · rw [sim1_get_true_count, if_neg (by positivity), if_neg (by omega)]
  · intro rc d1 d2 h0 h1 h12
    rw [get_true_count, get_true_count, if_pos (lt_of_lt_of_le h1 h12), if_pos h1]
    exact key rc d1 d2 h0 h1 h12
  · intro rc d1 d2 h0 h1 h12
    rw [sim1_get_true_count, sim1_get_true_count,
      if_neg (ne_of_gt (lt_of_lt_of_le h1 h12)), if_neg (ne_of_gt h1)]
    exact key rc d1 d2 h0 h1 h12

/-- C5 witness: the antitone part of the amended statement at running count
1 and deck counts 1 ≤ 2. -/
theorem c5_true_count_amended_w :
    get_true_count 1 2 ≤ get_true_count 1 1 :=
  c5_true_count_amended.2.2.1 1 1 2 (by norm_num) (by norm_num) (by norm_num)

/-- C6 counterexample: the skycity `deal_card` on the empty shoe silently
succeeds — it returns the ambient random rank (here a constant-Ace stream)
while the shoe stays empty, signalling no failure at all. -/
theorem c6_empty_shoe_counterexample :
    sc_deal_card (fun _ => Rank.A) [] 0 = (Rank.A, [], 1) := rfl

/-- C6 amended: in `skycity_blackjack.py` a draw from an empty shoe silently
returns the next rank of the ambient random source — a card not drawn from
the shoe, which stays empty — instead of failing; in
`blackjack_simulator_full.py` a draw from an exhausted shoe does fail the
hand, but with the generic list-pop error (modelled as `none`), not a
dedicated EmptyShoeError. -/
theorem c6_empty_shoe_amended :
    (∀ (fb : Nat → Rank) (i : Nat), sc_deal_card fb [] i = (fb i, [], i + 1)) ∧
      (∀ (tc b : ℚ), simulate_hand crownRules 100 [] tc b = none) :=
  ⟨fun _ _ => rfl, fun _ _ => rfl⟩

/-- C7 counterexample: a natural blackjack pays bet × 3/2, so the bankroll
after the hand (1150) is neither bankroll + bet (1100) nor bankroll − bet
(900) nor unchanged (1000); the wagered bet here is exactly 100. -/
theorem c7_blackjack_payout_counterexample :
    simulate_hand crownRules 100 [Rank.A, Rank.r10, Rank.r9, Rank.r8] 0 1000
        = some (1150, -2, []) ∧
      full_bet_size crownRules 100 0 1000 = 100 ∧
      ((1150 : ℚ) ≠ 1000 + 100 ∧ (1150 : ℚ) ≠ 1000 - 100 ∧ (1150 : ℚ) ≠ 1000) := by
  refine ⟨?_, by rfl, by norm_num⟩
  norm_num [simulate_hand, full_bet_size, full_player_loop, dealer_play, dealer_hits,
    full_basic_strategy, is_soft, settle, handValue, reduceAces, rawSum, countAces,
    hiLoSum, hiLoValue, cardValue, crownRules, min_def] <;> decide

/-- C7 amended: every resolved hand wagers some bet with 0 ≤ bet ≤ bankroll
and the bankroll after the hand equals bankroll + bet × payout (natural win),
bankroll + bet, bankroll − bet, or bankroll; in particular a loss never costs
more than the wagered bet, which never exceeds the bankroll before the hand.
Stated for the hands of `blackjack_simulator_full.py`, for the abstract
hands of `blackjack_simulation.py` (whose bonus factor is the fixed 3/2),
and for the hands of `skycity_blackjack.py`: there the wagered bet is the
flat 25, at most the bankroll before every hand actually played, because the
session loop plays no hand once the bankroll falls below 25 — it records the
current bankroll once more and stops. -/
theorem c7_bet_bound_amended (rules : Rules) (min_bet : ℚ) (deck : List Rank)
    (tc b : ℚ) (spread : Int) (rands : Nat → ℚ) (tci : Int) (deck2 : List Rank)
    (ri : Nat) (hmb : 0 ≤ min_bet) (hb : 0 ≤ b) (hsp : 0 ≤ spread) :
    (∀ r, simulate_hand rules min_bet deck tc b = some r →
      ∃ bet : ℚ, 0 ≤ bet ∧ bet ≤ b ∧
        (r.1 = b + bet * rules.blackjack_payout ∨ r.1 = b + bet ∨
          r.1 = b - bet ∨ r.1 = b)) ∧
    (∃ bet : ℚ, 0 ≤ bet ∧ bet ≤ b ∧
      ((simpy_bet_and_outcome min_bet spread rands tci deck2 b ri).1 = b + bet * (3 / 2) ∨
        (simpy_bet_and_outcome min_bet spread rands tci deck2 b ri).1 = b + bet ∨
        (simpy_bet_and_outcome min_bet spread rands tci deck2 b ri).1 = b - bet ∨
        (simpy_bet_and_outcome min_bet spread rands tci deck2 b ri).1 = b)) ∧
    (∀ (fb : Nat → Rank) (deckS : List Rank) (bS : ℚ) (iS : Nat), 25 ≤ bS →
      ∃ bet : ℚ, 0 ≤ bet ∧ bet ≤ bS ∧
        ((sc_play_hand fb deckS bS iS).1 = bS + bet * (3 / 2) ∨
          (sc_play_hand fb deckS bS iS).1 = bS + bet ∨
          (sc_play_hand fb deckS bS iS).1 = bS - bet ∨
          (sc_play_hand fb deckS bS iS).1 = bS)) ∧
    (∀ (fb : Nat → Rank) (shoesS : Nat → List Rank) (n hS : Nat) (bS : ℚ)
        (iS : Nat), bS < 25 →
      sc_run_aux fb shoesS (n + 1) hS bS iS = [bS]) :=
  ⟨fun r h => simulate_hand_cases rules min_bet deck tc b hmb hb r h,
    simpy_bet_and_outcome_cases min_bet spread rands tci deck2 b ri hmb hsp hb,
    fun fb deckS bS iS hge => sc_play_hand_cases fb deckS bS iS hge,
    fun fb shoesS n hS bS iS hlt => sc_run_aux_stop fb shoesS n hS bS iS hlt⟩

/-- C7 witness: the amended statement applied to the natural-blackjack hand
of the counterexample. -/
theorem c7_bet_bound_amended_w :
    ∃ bet : ℚ, 0 ≤ bet ∧ bet ≤ 1000 ∧
      ((1150 : ℚ) = 1000 + bet * crownRules.blackjack_payout ∨
        (1150 : ℚ) = 1000 + bet ∨ (1150 : ℚ) = 1000 - bet ∨ (1150 : ℚ) = 1000) := by
  have h := (c7_bet_bound_amended crownRules 100 [Rank.A, Rank.r10, Rank.r9, Rank.r8]
      0 1000 1 (fun _ => 0) 0 [] 0 (by norm_num) (by norm_num) (by norm_num)).1
      (1150, -2, [])
      (by norm_num [simulate_hand, full_bet_size, full_player_loop, dealer_play,
        dealer_hits, full_basic_strategy, is_soft, settle, handValue, reduceAces,
        rawSum, countAces, hiLoSum, hiLoValue, cardValue, crownRules, min_def] <;> decide)
  simpa using h

/-- C8: `hand_value` returns the best total at most 21 reachable by counting
some of the Aces as 1 (the totals are rawSum − 10·j for j up to the Ace
count), and when every such choice stays above 21 it returns the all-Aces-
as-1 total, which is itself above 21 (the bust total). -/
theorem c8_hand_value_best (hand : List Rank) :
    ((∃ j, j ≤ countAces hand ∧ rawSum hand - 10 * j ≤ 21) →
      handValue hand ≤ 21 ∧
      (∃ k, k ≤ countAces hand ∧ handValue hand = rawSum hand - 10 * k ∧
        ∀ j, j ≤ countAces hand → rawSum hand - 10 * j ≤ 21 →
          rawSum hand - 10 * j ≤ handValue hand)) ∧
    ((∀ j, j ≤ countAces hand → 21 < rawSum hand - 10 * j) →
      handValue hand = rawSum hand - 10 * countAces hand ∧ 21 < handValue hand) := by
  obtain ⟨k, hk, heq, hgt, hstop⟩ := reduceAces_char (countAces hand) (rawSum hand)
  have hhv : handValue hand = rawSum hand - 10 * k := heq
  constructor
  · rintro ⟨j, hj, hj21⟩
    have hjk : k ≤ j := by
      by_contra hlt
      have := hgt j (by omega)
      omega
    have hk21 : rawSum hand - 10 * k ≤ 21 := by
      rcases hstop with h | h
      · exact h
      · omega
    refine ⟨by omega, k, hk, hhv, ?_⟩
    intro j2 hj2 hj221
    have : k ≤ j2 := by
      by_contra hlt
      have := hgt j2 (by omega)
      omega
    omega
  · intro hall
    have hke : k = countAces hand := by
      rcases hstop with h | h
      · have := hall k hk
        omega
      · exact h
    have := hall (countAces hand) le_rfl
    exact ⟨by omega, by omega⟩

/-- C8 witness: the hand A,5,K (raw sum 26, one Ace) evaluates within 21. -/
theorem c8_hand_value_best_w :
    handValue [Rank.A, Rank.r5, Rank.K] ≤ 21 :=
  ((c8_hand_value_best [Rank.A, Rank.r5, Rank.K]).1 ⟨1, by decide, by decide⟩).1

/-- C9: both dealer loops stand on the two-card soft 17 {A,6} even with the
hit-soft-17 rule enabled: the full simulator's `is_soft` demands
`hand_value ≠ raw sum` (false when no Ace was reduced, as on A,6 where both
are 17), and the skycity guard demands raw sum strictly above 17 (false at
exactly 17).  The {10,7} scenario (stand on hard 17) does hold. -/
theorem c9_dealer_stands_on_soft17 :
    dealer_play true [Rank.A, Rank.r6] [Rank.r2]
        = some ([Rank.A, Rank.r6], [Rank.r2]) ∧
      handValue [Rank.A, Rank.r6] = 17 ∧
      rawSum [Rank.A, Rank.r6] = 17 ∧
      is_soft [Rank.A, Rank.r6] = false ∧
      sc_dealer_hits [Rank.A, Rank.r6] = false ∧
      sc_play_dealer_hand (fun _ => Rank.A) [Rank.r2] [Rank.A, Rank.r6] 0
        = ([Rank.A, Rank.r6], [Rank.r2], 0) ∧
      dealer_play false [Rank.r10, Rank.r7] [Rank.r2]
        = some ([Rank.r10, Rank.r7], [Rank.r2]) := by
  refine ⟨by decide, by decide, by decide, by decide, by decide, ?_, by decide⟩
  rw [sc_play_dealer_hand]
  decide

/-- C10: every bankroll value recorded in a session trajectory is
nonnegative, for all three session simulators: wagers are capped at the
current bankroll (full simulator and `blackjack_simulation.py`), or the hand
is only played with at least the flat bet in hand (`skycity_blackjack.py`),
so a lost hand can reach exactly 0 but never below. -/
theorem c10_bankroll_nonneg (rules : Rules) (min_bet : ℚ) (spread : Int)
    (shoes shoes2 shoes3 : Nat → List Rank) (rands : Nat → ℚ) (fb : Nat → Rank)
    (n si h ri i : Nat) (shoe deck : List Rank) (rc rc2 : Int) (b : ℚ)
    (hp : 0 ≤ rules.blackjack_payout) (hmb : 0 ≤ min_bet) (hsp : 0 ≤ spread)
    (hb : 0 ≤ b) :
    (∀ traj, full_session_aux rules min_bet shoes n si shoe rc b = some traj →
        ∀ x ∈ traj.1, 0 ≤ x) ∧
      (∀ traj, simpy_run_aux min_bet spread shoes2 rands n si deck rc2 b ri = some traj →
        ∀ x ∈ traj.1, 0 ≤ x) ∧
      (∀ x ∈ sc_run_aux fb shoes3 n h b i, 0 ≤ x) :=
  ⟨full_session_nonneg rules min_bet shoes hp hmb n si shoe rc b hb,
    simpy_session_nonneg min_bet spread shoes2 rands hmb hsp n si deck rc2 b ri hb,
    sc_session_nonneg fb shoes3 n h b i hb⟩

/-- C10 witness: a one-hand skycity session starting at bankroll 10 (below
the flat bet) records exactly the value 10, which the theorem certifies
nonnegative. -/
theorem c10_bankroll_nonneg_w : (0 : ℚ) ≤ 10 :=
  (c10_bankroll_nonneg crownRules 100 10 (fun _ => []) (fun _ => [])
      (fun _ => []) (fun _ => 0) (fun _ => Rank.A) 1 0 0 0 0 [] [] 0 0 10
      (by norm_num [crownRules]) (by norm_num) (by norm_num) (by norm_num)).2.2 10
    (by norm_num [sc_run_aux])

end BJ
